import Mathlib

/- A shallow embedding of the Lynx application-layer serializer
   (src/Lynx/ApplicationSerializer.py) and of the PHA record front end
   (src/Lynx/PhaData.py).  Python values that can reach the codec are
   modelled by `Value`; byte streams are lists of naturals below 256;
   fixed-width packing is modelled with explicit `% 2 ^ w` arithmetic;
   runtime failures (struct.error, UnicodeDecodeError, OverflowError,
   SerializationException, TypeError) become an `Except SerErr`. -/

/-- The runtime failures the codec can raise. -/
inductive SerErr where
  | structError
  | serializationException
  | unicodeDecodeError
  | unicodeEncodeError
  | typeError
  | overflowError
deriving DecidableEq

/-- The wire type tags the codec dispatches on.  TypeCode.py is not part of
    src/, so this is modelled from the spec: the registry is a pure
    enumeration of stable, distinct integer constants.  Only the tags the
    primitive branches of ApplicationSerializer handle (plus Unknown) are
    needed by the claims; the composite record tags dispatch to record
    classes that are likewise outside src/ and are not modelled. -/
inductive TypeCode where
  | Unknown
  | Null
  | Bool
  | Byte
  | Ubyte
  | Short
  | Ushort
  | Int
  | Uint
  | Long
  | Ulong
  | Float
  | Double
  | String
  | DateTime
deriving DecidableEq

/-- Modelled from the spec: the concrete numeric values of the tags are not
    given by the spec (TypeCode.py is missing); any fixed injective
    assignment of byte values represents the registry. -/
def typeCodeToNat : TypeCode → Nat
  | .Unknown => 0
  | .Null => 1
  | .Bool => 2
  | .Byte => 3
  | .Ubyte => 4
  | .Short => 5
  | .Ushort => 6
  | .Int => 7
  | .Uint => 8
  | .Long => 9
  | .Ulong => 10
  | .Float => 11
  | .Double => 12
  | .String => 13
  | .DateTime => 14

/-- Inverse lookup of `typeCodeToNat`, used when a MetaData header is read
    back from the wire. -/
def natToTypeCode : Nat → Option TypeCode
  | 0 => some .Unknown
  | 1 => some .Null
  | 2 => some .Bool
  | 3 => some .Byte
  | 4 => some .Ubyte
  | 5 => some .Short
  | 6 => some .Ushort
  | 7 => some .Int
  | 8 => some .Uint
  | 9 => some .Long
  | 10 => some .Ulong
  | 11 => some .Float
  | 12 => some .Double
  | 13 => some .String
  | 14 => some .DateTime
  | _ => none

/-- The pieces of the Python time module the converters read
    (time.timezone seconds west of UTC, time.daylight). -/
structure Env where
  timezone : Int
  daylight : Bool
deriving DecidableEq

/-- A concrete environment: UTC, no daylight saving. -/
def env0 : Env := ⟨0, false⟩

/-- Python's datetime.timedelta with a float microseconds argument rounds to
    a whole number of microseconds, ties to even; this models
    timedelta(microseconds = v / 10) for an integer v.  (The binary-float
    rounding of v / 10 itself is exact for every magnitude the theorems
    evaluate and is not modelled separately.) -/
def roundHalfEvenDiv10 (v : Int) : Int :=
  let r := v % 10
  let q := (v - r) / 10
  if r < 5 then q else if 5 < r then q + 1 else if q % 2 = 0 then q else q + 1

/-- Lower bound of Python's datetime range (0001-01-01) in microseconds
    relative to the FILETIME null date 1601-01-01: 584388 days earlier. -/
def pyDatetimeMinUS : Int := -(584388 * 86400000000)

/-- Upper bound of Python's datetime range (9999-12-31 23:59:59.999999):
    3067670 whole days after 1601-01-01 plus a day minus one microsecond. -/
def pyDatetimeMaxUS : Int := 3067670 * 86400000000 + 86399999999

/-- convertToLocalDate (ApplicationSerializer.py lines 22-37): FILETIME
    ticks to a localised datetime, modelled as microseconds since
    1601-01-01.  datetime arithmetic leaving Python's representable range
    raises OverflowError.  The daylight adjustment is commented out in the
    source and hence absent here. -/
def convertToLocalDate (env : Env) (val : Int) : Except SerErr Int :=
  let us := roundHalfEvenDiv10 val - env.timezone * 1000000
  if pyDatetimeMinUS ≤ us ∧ us ≤ pyDatetimeMaxUS then .ok us else .error .overflowError

/-- convertToLynxDate (ApplicationSerializer.py lines 38-51): the encode
    direction.  The final line of the source returns res.microseconds * 10,
    the sub-second component of the elapsed duration only, not the full
    tick count. -/
def convertToLynxDate (env : Env) (dtUS : Int) : Int :=
  let res := dtUS + env.timezone * 1000000 - (if env.daylight then 3600000000 else 0)
  res % 1000000 * 10

/-- Little-endian byte list of x at width n (fixed-width struct.pack
    payload). -/
def natLE : Nat → Nat → List Nat
  | 0, _ => []
  | n + 1, x => x % 256 :: natLE n (x / 256)

/-- Little-endian value of a byte list (fixed-width struct.unpack). -/
def leNat (bs : List Nat) : Nat := bs.foldr (fun b acc => b + 256 * acc) 0

/-- Reinterpret an unsigned width-bits value as two's-complement signed. -/
def toSigned (bits : Nat) (u : Nat) : Int :=
  if u < 2 ^ (bits - 1) then (u : Int) else (u : Int) - 2 ^ bits

/-- struct.pack of a signed little-endian integer: range-checked (pack
    raises struct.error out of range), two's complement on the wire. -/
def packSigned (n : Nat) (v : Int) : Except SerErr (List Nat) :=
  if -(2 ^ (8 * n - 1)) ≤ v ∧ v < 2 ^ (8 * n - 1) then
    .ok (natLE n (v % ((2 : Int) ^ (8 * n))).toNat)
  else .error .structError

/-- struct.pack of an unsigned little-endian integer. -/
def packUnsigned (n : Nat) (v : Int) : Except SerErr (List Nat) :=
  if 0 ≤ v ∧ v < 2 ^ (8 * n) then .ok (natLE n v.toNat) else .error .structError

/-- Round-to-nearest-even division of num by 2 ^ shift. -/
def rne (num : Nat) (shift : Nat) : Nat :=
  if shift = 0 then num
  else
    let d := num / 2 ^ shift
    let r := num % 2 ^ shift
    let h := 2 ^ (shift - 1)
    if h < r then d + 1 else if r < h then d else if d % 2 = 0 then d else d + 1

/-- struct.pack with format "<f": narrow an IEEE-754 binary64 bit pattern
    to binary32, round to nearest with ties to even.  (This branch of the
    serializer is reachable only with an explicit Float tag and is not
    exercised by any claim; it is modelled for completeness.) -/
def f64ToF32bits (b : Nat) : Nat :=
  let s : Nat := b / 2 ^ 63 % 2
  let e : Nat := b / 2 ^ 52 % 2 ^ 11
  let f : Nat := b % 2 ^ 52
  if e = 2047 then
    if f = 0 then s * 2 ^ 31 + 2139095040
    else s * 2 ^ 31 + 2143289344 + f / 2 ^ 29 % 2 ^ 22
  else
    let m := if e = 0 then f else f + 2 ^ 52
    if m = 0 then s * 2 ^ 31
    else
      let ee : Int := (if e = 0 then 1 else (e : Int)) - 1075
      let k : Int := (Nat.log2 m : Int) + ee
      let q : Int := max (k - 23) (-149)
      let M : Nat := if q ≤ ee then m * 2 ^ (ee - q).toNat else rne m (q - ee).toNat
      if q = -149 then s * 2 ^ 31 + M
      else if M = 2 ^ 24 then
        if (255 : Int) ≤ k + 128 then s * 2 ^ 31 + 2139095040
        else s * 2 ^ 31 + (k + 128).toNat * 2 ^ 23
      else
        if (255 : Int) ≤ k + 127 then s * 2 ^ 31 + 2139095040
        else s * 2 ^ 31 + (k + 127).toNat * 2 ^ 23 + (M - 2 ^ 23)

/-- struct.unpack with format "<f": widen an IEEE-754 binary32 bit pattern
    to the binary64 pattern of the resulting Python float (exact). -/
def f32ToF64bits (b : Nat) : Nat :=
  let s := b / 2 ^ 31 % 2
  let e := b / 2 ^ 23 % 2 ^ 8
  let f := b % 2 ^ 23
  if e = 255 then s * 2 ^ 63 + 2047 * 2 ^ 52 + f * 2 ^ 29
  else if e = 0 then
    if f = 0 then s * 2 ^ 63
    else
      let k := Nat.log2 f
      s * 2 ^ 63 + (k + 874) * 2 ^ 52 + (f - 2 ^ k) * 2 ^ (52 - k)
  else s * 2 ^ 63 + (e + 896) * 2 ^ 52 + f * 2 ^ 29

/-- str.encode of Python with codec utf_16_le: two bytes per BMP code
    point, a four-byte surrogate pair for the astral plane, and a
    UnicodeEncodeError for a lone surrogate in the string. -/
def encodeUtf16LE : List Nat → Except SerErr (List Nat)
  | [] => .ok []
  | cp :: rest =>
    match encodeUtf16LE rest with
    | .error e => .error e
    | .ok tail =>
      if cp < 65536 then
        if 55296 ≤ cp ∧ cp ≤ 57343 then .error .unicodeEncodeError
        else .ok (cp % 256 :: cp / 256 :: tail)
      else if cp < 1114112 then
        .ok ((55296 + (cp - 65536) / 1024) % 256 :: (55296 + (cp - 65536) / 1024) / 256 ::
             (56320 + (cp - 65536) % 1024) % 256 :: (56320 + (cp - 65536) % 1024) / 256 :: tail)
      else .error .unicodeEncodeError

/-- Little-endian 16-bit code units of a byte string; an odd byte count is
    truncated data (UnicodeDecodeError). -/
def bytesToUnitsLE : List Nat → Except SerErr (List Nat)
  | [] => .ok []
  | [_] => .error .unicodeDecodeError
  | b0 :: b1 :: rest =>
    match bytesToUnitsLE rest with
    | .ok us => .ok ((b0 + 256 * b1) :: us)
    | .error e => .error e

/-- Big-endian 16-bit code units (taken after a big-endian byte mark). -/
def bytesToUnitsBE : List Nat → Except SerErr (List Nat)
  | [] => .ok []
  | [_] => .error .unicodeDecodeError
  | b0 :: b1 :: rest =>
    match bytesToUnitsBE rest with
    | .ok us => .ok ((256 * b0 + b1) :: us)
    | .error e => .error e

/-- Combine UTF-16 code units into code points; an unpaired surrogate is a
    UnicodeDecodeError. -/
def unitsToCps : List Nat → Except SerErr (List Nat)
  | [] => .ok []
  | u :: rest =>
    if 55296 ≤ u ∧ u < 56320 then
      match rest with
      | [] => .error .unicodeDecodeError
      | l :: rest2 =>
        if 56320 ≤ l ∧ l < 57344 then
          match unitsToCps rest2 with
          | .ok cs => .ok ((65536 + (u - 55296) * 1024 + (l - 56320)) :: cs)
          | .error e => .error e
        else .error .unicodeDecodeError
    else if 56320 ≤ u ∧ u < 57344 then .error .unicodeDecodeError
    else
      match unitsToCps rest with
      | .ok cs => .ok (u :: cs)
      | .error e => .error e

/-- Decode a byte string little-endian, without a byte-order mark. -/
def decodeAllLE (bs : List Nat) : Except SerErr (List Nat) :=
  match bytesToUnitsLE bs with
  | .ok us => unitsToCps us
  | .error e => .error e

/-- Decode a byte string big-endian. -/
def decodeAllBE (bs : List Nat) : Except SerErr (List Nat) :=
  match bytesToUnitsBE bs with
  | .ok us => unitsToCps us
  | .error e => .error e

/-- bytes.decode of Python with codec utf-16 (the deserializer's choice,
    line 249): the first two bytes are sniffed for a byte-order mark and
    consumed when one is found; otherwise little-endian is assumed. -/
def pyDecodeUtf16 (bs : List Nat) : Except SerErr (List Nat) :=
  match bs with
  | b0 :: b1 :: rest =>
    if b0 = 255 ∧ b1 = 254 then decodeAllLE rest
    else if b0 = 254 ∧ b1 = 255 then decodeAllBE rest
    else decodeAllLE (b0 :: b1 :: rest)
  | other => decodeAllLE other

/-- The native Python values that can reach the codec's primitive branches:
    None, bool, int, float (as its binary64 bit pattern), str (as its code
    points) and datetime (as microseconds since 1601-01-01). -/
inductive Value where
  | vnone
  | vbool (b : Bool)
  | vint (i : Int)
  | vfloat (bits : Nat)
  | vstr (cps : List Nat)
  | vdatetime (us : Int)
deriving DecidableEq

def Value.isVBool : Value → Bool
  | .vbool _ => true
  | _ => false

def Value.isVInt : Value → Bool
  | .vint _ => true
  | _ => false

def Value.isVFloat : Value → Bool
  | .vfloat _ => true
  | _ => false

def Value.isVStr : Value → Bool
  | .vstr _ => true
  | _ => false

def Value.isVDatetime : Value → Bool
  | .vdatetime _ => true
  | _ => false

/-- struct.pack with an integer format requires an int argument (a bool is
    an int in Python, though no bool reaches these branches); anything else
    raises struct.error. -/
def toPackInt : Value → Except SerErr Int
  | .vint i => .ok i
  | .vbool b => .ok (if b then 1 else 0)
  | _ => .error .structError

/-- struct.pack with a float format; ints and bools are caught by earlier
    branches of serialize and never reach the float formats. -/
def toPackFloat : Value → Except SerErr Nat
  | .vfloat bits => .ok bits
  | _ => .error .structError

/-- obj.encode exists only on str (AttributeError otherwise). -/
def toStrCps : Value → Except SerErr (List Nat)
  | .vstr cps => .ok cps
  | _ => .error .typeError

/-- convertToLynxDate subtracts the FILETIME null date, which requires a
    datetime argument (TypeError otherwise). -/
def toDatetimeUs : Value → Except SerErr Int
  | .vdatetime us => .ok us
  | _ => .error .typeError

/-- ApplicationSerializer.getTypeCode (lines 63-93).  The branch order of
    the source: None, bool, int (returning Uint), a dead second int branch
    (the Python 2 long relic, lines 81-82, returning Long), float, str,
    datetime. -/
def getTypeCode : Value → TypeCode
  | .vnone => .Null
  | .vbool _ => .Bool
  | .vint _ => .Uint
  | .vfloat _ => .Double
  | .vstr _ => .String
  | .vdatetime _ => .DateTime

/-- ApplicationSerializer.getTypeSize (lines 95-126).  As in getTypeCode the
    second int branch (8, lines 113-114) is dead: every int reports 4.  A
    str reports the length of its utf_16_le encoding. -/
def getTypeSize : Value → Except SerErr Nat
  | .vnone => .ok 0
  | .vbool _ => .ok 1
  | .vint _ => .ok 4
  | .vfloat _ => .ok 8
  | .vstr cps =>
    match encodeUtf16LE cps with
    | .ok enc => .ok enc.length
    | .error e => .error e
  | .vdatetime _ => .ok 8

/-- The MetaData header.  MetaData.py is not part of src/, so this is
    modelled from the spec: a fixed five-byte structure, one byte of type
    tag followed by a four-byte little-endian unsigned size, built from
    getTypeCode and getTypeSize of the value (serialize lines 149-151). -/
def metaHeader (obj : Value) : Except SerErr (List Nat) :=
  match getTypeSize obj with
  | .error e => .error e
  | .ok sz =>
    if sz < 4294967296 then .ok (typeCodeToNat (getTypeCode obj) :: natLE 4 sz)
    else .error .structError

/-- The str arm of ApplicationSerializer.serialize (lines 173-178), split
    out for proof convenience: encode to UTF-16LE and, only when no header
    was requested, write the 4-byte length prefix first (via the signed
    "<i" pack of line 176). -/
def serializeStr (writeMeta : Bool) (cps : List Nat) : Except SerErr (List Nat) :=
  match encodeUtf16LE cps with
  | .error e => .error e
  | .ok enc =>
    if writeMeta = false then
      match packSigned 4 ((enc.length : Nat) : Int) with
      | .error e => .error e
      | .ok lp => .ok (lp ++ enc)
    else .ok enc

/-- The payload bytes the branch chain of ApplicationSerializer.serialize
    (lines 153-185) appends after the optional header, replicating the
    source's branch order exactly.  Notable consequences of that order: a
    native int is caught by the isinstance test of the Int/Uint branch
    (line 165) before the Long/Ulong tags are ever compared (line 167), so
    an explicit Long or Ulong tag cannot select the 8-byte encoding for an
    int; the Short and Ushort tags both pack the signed "<h" format
    (line 164); the length prefix of a str is written only when no header
    was requested (lines 174-176).  The final `TypeCode.Null == type`
    comparison of the source (line 183) compares against the builtin
    `type` function and is dead. -/
def serializeBody (env : Env) (obj : Value) (writeMeta : Bool) (tc : Option TypeCode) :
    Except SerErr (List Nat) :=
  if obj = .vnone then .ok []
  else if obj.isVBool ∨ tc = some .Bool then
    .ok [if obj = .vbool true then 1 else 0]
  else if tc = some .Byte then
    match toPackInt obj with
    | .ok i => packSigned 1 i
    | .error e => .error e
  else if tc = some .Ubyte then
    match toPackInt obj with
    | .ok i => packUnsigned 1 i
    | .error e => .error e
  else if tc = some .Short ∨ tc = some .Ushort then
    match toPackInt obj with
    | .ok i => packSigned 2 i
    | .error e => .error e
  else if obj.isVInt ∨ tc = some .Int ∨ tc = some .Uint then
    match toPackInt obj with
    | .ok i => packSigned 4 i
    | .error e => .error e
  else if obj.isVInt ∨ tc = some .Long ∨ tc = some .Ulong then
    match toPackInt obj with
    | .ok i => packSigned 8 i
    | .error e => .error e
  else if tc = some .Float then
    match toPackFloat obj with
    | .ok bits => .ok (natLE 4 (f64ToF32bits bits))
    | .error e => .error e
  else if obj.isVFloat ∨ tc = some .Double then
    match toPackFloat obj with
    | .ok bits => .ok (natLE 8 bits)
    | .error e => .error e
  else if obj.isVStr ∨ tc = some .String then
    match toStrCps obj with
    | .error e => .error e
    | .ok cps => serializeStr writeMeta cps
  else if obj.isVDatetime ∨ tc = some .DateTime then
    match toDatetimeUs obj with
    | .ok us => packSigned 8 (convertToLynxDate env us)
    | .error e => .error e
  else .error .serializationException

/-- ApplicationSerializer.serialize (lines 128-187): optional MetaData
    header, then the payload of the branch chain, appended to the given
    stream. -/
def serialize (env : Env) (obj : Value) (stream : List Nat) (writeMeta : Bool)
    (objTypeCode : Option TypeCode) : Except SerErr (List Nat) :=
  match (if writeMeta then metaHeader obj else .ok []) with
  | .error e => .error e
  | .ok hdr =>
    match serializeBody env obj writeMeta objTypeCode with
    | .error e => .error e
    | .ok payload => .ok (stream ++ hdr ++ payload)

/-- The source slices stream[0:n] and lets struct.unpack raise when fewer
    than n bytes arrived; this helper returns the n bytes and the remainder
    or that struct.error. -/
def takeExact (n : Nat) (s : List Nat) : Except SerErr (List Nat × List Nat) :=
  if n ≤ s.length then .ok (s.take n, s.drop n) else .error .structError

/-- Python slicing s[0:i] for an int i (a negative stop counts from the
    end; out-of-range clamps, it never raises). -/
def pyTake (l : List Nat) (i : Int) : List Nat :=
  if 0 ≤ i then l.take i.toNat else l.take ((l.length : Int) + i).toNat

/-- Python slicing s[i:]. -/
def pyDrop (l : List Nat) (i : Int) : List Nat :=
  if 0 ≤ i then l.drop i.toNat else l.drop ((l.length : Int) + i).toNat

/-- The per-tag arms of ApplicationSerializer.deserialize (lines 203-301)
    for every tag other than Unknown.  Composite record tags dispatch to
    record classes outside src/ and are not modelled; the trailing `else`
    of the source raising SerializationException corresponds to the
    Unknown arm here, which the wrapper `deserialize` never reaches. -/
def deserializeTag (env : Env) (stream : List Nat) (t : TypeCode) (size : Int) :
    Except SerErr (Value × List Nat) :=
  match t with
  | .Int =>
    match takeExact 4 stream with
    | .ok (bs, rest) => .ok (.vint (toSigned 32 (leNat bs)), rest)
    | .error e => .error e
  | .Uint =>
    match takeExact 4 stream with
    | .ok (bs, rest) => .ok (.vint ((leNat bs : Nat) : Int), rest)
    | .error e => .error e
  | .Long =>
    match takeExact 8 stream with
    | .ok (bs, rest) => .ok (.vint (toSigned 64 (leNat bs)), rest)
    | .error e => .error e
  | .Ulong =>
    match takeExact 8 stream with
    | .ok (bs, rest) => .ok (.vint ((leNat bs : Nat) : Int), rest)
    | .error e => .error e
  | .Short =>
    match takeExact 2 stream with
    | .ok (bs, rest) => .ok (.vint (toSigned 16 (leNat bs)), rest)
    | .error e => .error e
  | .Ushort =>
    match takeExact 2 stream with
    | .ok (bs, rest) => .ok (.vint ((leNat bs : Nat) : Int), rest)
    | .error e => .error e
  | .Byte =>
    match takeExact 1 stream with
    | .ok (bs, rest) => .ok (.vint (toSigned 8 (leNat bs)), rest)
    | .error e => .error e
  | .Ubyte =>
    match takeExact 1 stream with
    | .ok (bs, rest) => .ok (.vint ((leNat bs : Nat) : Int), rest)
    | .error e => .error e
  | .Float =>
    match takeExact 4 stream with
    | .ok (bs, rest) => .ok (.vfloat (f32ToF64bits (leNat bs)), rest)
    | .error e => .error e
  | .Double =>
    match takeExact 8 stream with
    | .ok (bs, rest) => .ok (.vfloat (leNat bs), rest)
    | .error e => .error e
  | .Bool =>
    match takeExact 1 stream with
    | .ok (bs, rest) => .ok ((if leNat bs = 0 then .vbool false else .vbool true), rest)
    | .error e => .error e
  | .Null => .ok (.vnone, stream)
  | .String =>
    if 0 < size then
      match pyDecodeUtf16 (pyTake stream size) with
      | .ok cps => .ok (.vstr cps, pyDrop stream size)
      | .error e => .error e
    else
      match takeExact 4 stream with
      | .ok (bs, rest) =>
        match pyDecodeUtf16 (pyTake rest (toSigned 32 (leNat bs))) with
        | .ok cps => .ok (.vstr cps, pyDrop rest (toSigned 32 (leNat bs)))
        | .error e => .error e
      | .error e => .error e
  | .DateTime =>
    match takeExact 8 stream with
    | .ok (bs, rest) =>
      match convertToLocalDate env (toSigned 64 (leNat bs)) with
      | .ok us => .ok (.vdatetime us, rest)
      | .error e => .error e
    | .error e => .error e
  | .Unknown => .error .serializationException

/-- The Unknown arm of deserialize (lines 294-298): read a MetaData header
    (one tag byte, four little-endian size bytes; modelled from the spec,
    MetaData.py being outside src/) and recurse with the header's tag and
    size.  A header announcing Unknown makes the source recurse into
    another header read, so the recursion is a loop that consumes five
    bytes per pass; an unregistered tag byte is the SerializationException
    of the source's trailing `else`. -/
def deserializeUnknownLoop (env : Env) : List Nat → Except SerErr (Value × List Nat)
  | b0 :: b1 :: b2 :: b3 :: b4 :: rest =>
    match natToTypeCode b0 with
    | some TypeCode.Unknown => deserializeUnknownLoop env rest
    | some tc => deserializeTag env rest tc ((leNat [b1, b2, b3, b4] : Nat) : Int)
    | none => .error .serializationException
  | _ => .error .structError

/-- ApplicationSerializer.deserialize (lines 189-302). -/
def deserialize (env : Env) (stream : List Nat) (t : TypeCode) (size : Int) :
    Except SerErr (Value × List Nat) :=
  if t = .Unknown then deserializeUnknownLoop env stream
  else deserializeTag env stream t size

/-- Modelled from the spec: SpectralData.py is not part of src/.  The spec
    fixes only the composite record contract — the base record serializes
    its own fields into some payload and reports that payload's byte count
    as its size — so the base record is modelled abstractly by those two
    observables. -/
structure SpectralData where
  dataSize : Nat
  payload : List Nat
deriving DecidableEq

/-- PhaData (PhaData.py): live time, real time and computational value on
    top of a spectral base record.  The fields hold whatever Python values
    the instance carries (ints after __init__ or deserializeData). -/
structure PhaData where
  liveTime : Value
  realTime : Value
  compValue : Value
  base : SpectralData
deriving DecidableEq

/-- PhaData.getDataSize (lines 57-66): the base record's size plus 3 * 8. -/
def PhaData.getDataSize (p : PhaData) : Nat := p.base.dataSize + 3 * 8

/-- PhaData.serializeData (lines 67-81): the three derived fields, each via
    ApplicationSerializer.serialize with objTypeCode = TypeCode.Long, then
    the base record's payload. -/
def PhaData.serializeData (env : Env) (p : PhaData) (stream : List Nat) :
    Except SerErr (List Nat) :=
  match serialize env p.liveTime [] false (some .Long) with
  | .error e => .error e
  | .ok s1 =>
    match serialize env p.realTime [] false (some .Long) with
    | .error e => .error e
    | .ok s2 =>
      match serialize env p.compValue [] false (some .Long) with
      | .error e => .error e
      | .ok s3 => .ok (stream ++ s1 ++ s2 ++ s3 ++ p.base.payload)

/-- Bytes a successful decode of the tag consumes, for the fixed-width
    primitive tags. -/
def decodeWidth : TypeCode → Nat
  | .Int => 4
  | .Uint => 4
  | .Long => 8
  | .Ulong => 8
  | .Short => 2
  | .Ushort => 2
  | .Byte => 1
  | .Ubyte => 1
  | .Float => 4
  | .Double => 8
  | .Bool => 1
  | .DateTime => 8
  | _ => 0

/-- The fixed-width primitive tags: every tag whose decode reads a
    predetermined number of bytes through struct.unpack. -/
def fixedWidthTags : List TypeCode :=
  [.Int, .Uint, .Long, .Ulong, .Short, .Ushort, .Byte, .Ubyte, .Float, .Double, .Bool, .DateTime]

/-- Extra bytes the headerless serialize appends beyond getTypeSize: the
    four-byte length prefix written for a str when writeMeta is false. -/
def strHeaderlessExtra : Value → Nat
  | .vstr _ => 4
  | _ => 0

/-- The values for which the self-describing header round trip of the code
    actually succeeds: None, bools, ints representable and non-negative in
    the signed-packed unsigned-unpacked 32-bit wire field, floats, and
    non-empty strings that encode cleanly (no lone surrogate) and do not
    begin with a code point the utf-16 byte-order-mark sniffing of the
    decoder would swallow.  Timestamps are excluded (the encoder keeps only
    the sub-second component), as are empty strings (a header size of 0
    makes the decoder re-read a length prefix from the payload). -/
def MetaGood : Value → Prop
  | .vnone => True
  | .vbool _ => True
  | .vint i => 0 ≤ i ∧ i < 2147483648
  | .vfloat bits => bits < 18446744073709551616
  | .vstr cps =>
    cps ≠ [] ∧ cps.length < 1073741824 ∧
    (∀ cp ∈ cps, cp < 1114112 ∧ ¬(55296 ≤ cp ∧ cp ≤ 57343)) ∧
    (∀ c r, cps = c :: r → c ≠ 65279 ∧ c ≠ 65534)
  | .vdatetime _ => False

theorem natLE_length : ∀ (n x : Nat), (natLE n x).length = n := by
  intro n
  induction n with
  | zero => intro x; rfl
  | succ n ih => intro x; show (natLE n (x / 256)).length + 1 = n + 1; rw [ih]

theorem leNat_cons (b : Nat) (t : List Nat) : leNat (b :: t) = b + 256 * leNat t := rfl

theorem leNat_natLE : ∀ (n x : Nat), x < 2 ^ (8 * n) → leNat (natLE n x) = x := by
  intro n
  induction n with
  | zero =>
    intro x hx
    have : x = 0 := by simpa using hx
    simp [this, natLE, leNat]
  | succ n ih =>
    intro x hx
    have hsplit : (2 : Nat) ^ (8 * (n + 1)) = 2 ^ (8 * n) * 256 := by
      rw [show 8 * (n + 1) = 8 * n + 8 by ring, pow_add]
      norm_num
    have h2 : x / 256 < 2 ^ (8 * n) := by
      rw [hsplit] at hx
      omega
    show x % 256 + 256 * leNat (natLE n (x / 256)) = x
    rw [ih _ h2]
    omega

theorem takeExact_underrun {n : Nat} {s : List Nat} (h : s.length < n) :
    takeExact n s = .error .structError := by
  rw [takeExact, if_neg (by omega)]

theorem takeExact_exact {n : Nat} {l : List Nat} (h : l.length = n) :
    takeExact n l = .ok (l, []) := by
  rw [takeExact, if_pos (by omega)]
  subst h
  rw [List.take_length, List.drop_length]

theorem loop_step (env : Env) (b0 b1 b2 b3 b4 : Nat) (r : List Nat) (tc : TypeCode)
    (h : natToTypeCode b0 = some tc) (hne : tc ≠ .Unknown) :
    deserializeUnknownLoop env (b0 :: b1 :: b2 :: b3 :: b4 :: r) =
      deserializeTag env r tc ((leNat [b1, b2, b3, b4] : Nat) : Int) := by
  show (match natToTypeCode b0 with
        | some TypeCode.Unknown => deserializeUnknownLoop env r
        | some tc => deserializeTag env r tc ((leNat [b1, b2, b3, b4] : Nat) : Int)
        | none => .error .serializationException) = _
  rw [h]
  cases tc <;> first | exact absurd rfl hne | rfl

/-- Claim C1: the claim expects an explicit Long or Ulong tag to force the
    8-byte encoding of an int, but the isinstance branch of the Int/Uint
    arm (line 165) catches every int first: the code packs 4 bytes.  This
    theorem evaluates the code at the failing input v = 100. -/
theorem serialize_int_ignores_long_tag :
    serialize env0 (.vint 100) [] false (some .Long) = .ok [100, 0, 0, 0] ∧
    serialize env0 (.vint 100) [] false (some .Ulong) = .ok [100, 0, 0, 0] ∧
    ([100, 0, 0, 0] : List Nat) ≠ [100, 0, 0, 0, 0, 0, 0, 0] :=
  ⟨rfl, rfl, by decide⟩

/-- Claim C2: the round-trip fails on the code for negative ints: tagOf
    classifies every int as Uint, serialize packs the signed "<i" format
    while deserialize unpacks the unsigned "<I" format, so -1 comes back
    as 4294967295.  This theorem evaluates the code at that failing
    input. -/
theorem serialize_deserialize_uint_negative :
    getTypeCode (.vint (-1)) = .Uint ∧
    serialize env0 (.vint (-1)) [] false (some .Uint) = .ok [255, 255, 255, 255] ∧
    deserialize env0 [255, 255, 255, 255] .Uint 0 = .ok (.vint 4294967295, []) ∧
    Value.vint 4294967295 ≠ Value.vint (-1) :=
  ⟨rfl, rfl, rfl, by decide⟩

/-- Claim C3, counterexample: a String decode with caller-supplied size 4
    on a 2-byte buffer does not fail — Python slicing truncates silently
    and the decode succeeds with the truncated text and an empty
    remainder. -/
theorem deserialize_string_truncates :
    deserialize env0 [65, 0] .String 4 = .ok (.vstr [65], []) := rfl

/-- Claim C3, amended: for every fixed-width primitive tag, a buffer
    shorter than the tag's width makes deserialize fail with the
    buffer-underrun struct.error; the String path is the exception the
    counterexample exhibits. -/
theorem fixed_width_underrun (env : Env) (t : TypeCode) (s : List Nat)
    (ht : t ∈ fixedWidthTags) (hs : s.length < decodeWidth t) :
    deserialize env s t 0 = .error .structError := by
  have hu : ∀ n, s.length < n → takeExact n s = .error .structError :=
    fun n h => takeExact_underrun h
  fin_cases ht <;>
    simp only [decodeWidth] at hs <;>
    simp [deserialize, deserializeTag, hu _ hs]

theorem fixed_width_underrun_witness :
    deserialize env0 [] .Long 0 = .error .structError :=
  fixed_width_underrun env0 .Long [] (by decide) (by decide)

/-- Claim C6: convertToLynxDate keeps only res.microseconds * 10, so its
    output is always below 10^7 ticks; at 1601-01-02 (86400000000
    microseconds after the epoch) it returns 0 instead of the full
    864000000000-tick duration. -/
theorem convertToLynxDate_subsecond_only :
    (∀ (env : Env) (dt : Int),
      0 ≤ convertToLynxDate env dt ∧ convertToLynxDate env dt < 10000000) ∧
    convertToLynxDate env0 86400000000 = 0 ∧ (864000000000 : Int) ≠ 0 := by
  refine ⟨?_, rfl, by decide⟩
  intro env dt
  unfold convertToLynxDate
  cases env.daylight <;> simp only [if_true, if_false] <;> omega

/-- Claim C7: with liveTime = 100, realTime = 200, compValue = 0 and an
    empty base payload, PhaData.serializeData emits 4-byte encodings of
    the three fields (the Long tag being ignored for ints), not the 8-byte
    encodings the claim states. -/
theorem phaData_fields_packed_four_bytes :
    PhaData.serializeData env0 ⟨.vint 100, .vint 200, .vint 0, ⟨0, []⟩⟩ [] =
      .ok [100, 0, 0, 0, 200, 0, 0, 0, 0, 0, 0, 0] ∧
    ([100, 0, 0, 0, 200, 0, 0, 0, 0, 0, 0, 0] : List Nat) ≠
      [100, 0, 0, 0, 0, 0, 0, 0] ++ [200, 0, 0, 0, 0, 0, 0, 0] ++ [0, 0, 0, 0, 0, 0, 0, 0] :=
  ⟨rfl, by decide⟩

/-- Claim C8: getDataSize reports the base size plus 24, but serializeData
    appends only 12 bytes for the three int fields, so the size contract
    of the claim fails on the code. -/
theorem phaData_size_vs_serialized_length :
    PhaData.getDataSize ⟨.vint 0, .vint 0, .vint 0, ⟨0, []⟩⟩ = 24 ∧
    PhaData.serializeData env0 ⟨.vint 0, .vint 0, .vint 0, ⟨0, []⟩⟩ [] =
      .ok [0, 0, 0, 0, 0, 0, 0, 0, 0, 0, 0, 0] ∧
    ([0, 0, 0, 0, 0, 0, 0, 0, 0, 0, 0, 0] : List Nat).length ≠
      PhaData.getDataSize ⟨.vint 0, .vint 0, .vint 0, ⟨0, []⟩⟩ :=
  ⟨rfl, rfl, by decide⟩

/-- Claim C9: the Null arm of deserialize consumes nothing and never
    fails: it returns None and the whole buffer as remainder. -/
theorem deserialize_null_returns_stream (env : Env) (s : List Nat) (size : Int) :
    deserialize env s .Null size = .ok (.vnone, s) := rfl

/-- Claim C10: the Bool arm of deserialize consumes exactly the first
    byte and maps zero to False and every nonzero byte to True. -/
theorem deserialize_bool_nonzero (env : Env) (b : Nat) (rest : List Nat) (_hb : b < 256) :
    deserialize env (b :: rest) .Bool 0 =
      .ok ((if b = 0 then Value.vbool false else Value.vbool true), rest) := by
  show deserializeTag env (b :: rest) .Bool 0 = _
  rw [deserializeTag]
  rw [show takeExact 1 (b :: rest) = .ok ([b], rest) by
    rw [takeExact, if_pos (by simp)]; rfl]
  simp [leNat]

theorem deserialize_bool_nonzero_witness :
    deserialize env0 [7, 3] .Bool 0 = .ok (.vbool true, [3]) := by
  have h := deserialize_bool_nonzero env0 7 [3] (by decide)
  simpa using h

theorem serialize_headerless (env : Env) (v : Value) (tc : Option TypeCode) :
    serialize env v [] false tc
      = (match serializeBody env v false tc with
         | .error e => (.error e : Except SerErr (List Nat))
         | .ok p => .ok p) := rfl

theorem serialize_meta (env : Env) (v : Value) :
    serialize env v [] true none
      = (match metaHeader v with
         | .error e => (.error e : Except SerErr (List Nat))
         | .ok hdr =>
           match serializeBody env v true none with
           | .error e => .error e
           | .ok p => .ok (hdr ++ p)) := rfl

theorem serializeBody_vint (env : Env) (i : Int) (wm : Bool) :
    serializeBody env (.vint i) wm none = packSigned 4 i := rfl

theorem serializeBody_vdatetime (env : Env) (us : Int) (wm : Bool) :
    serializeBody env (.vdatetime us) wm none =
      packSigned 8 (convertToLynxDate env us) := rfl

theorem serializeBody_vstr (env : Env) (cps : List Nat) (wm : Bool) :
    serializeBody env (.vstr cps) wm none = serializeStr wm cps := rfl

/-- Claim C4, counterexample: for the string "AB" getTypeSize reports 4,
    but the headerless serialize appends 8 bytes — the 4-byte length
    prefix precedes the UTF-16 payload. -/
theorem getTypeSize_string_mismatch :
    getTypeSize (.vstr [65, 66]) = .ok 4 ∧
    serialize env0 (.vstr [65, 66]) [] false none = .ok [4, 0, 0, 0, 65, 0, 66, 0] ∧
    ([4, 0, 0, 0, 65, 0, 66, 0] : List Nat).length ≠ 4 :=
  ⟨rfl, rfl, by decide⟩

/-- Claim C4, amended: whenever the headerless, untagged serialize
    succeeds, getTypeSize v equals the appended byte count minus the extra
    4-byte length prefix that only strings receive (so the two agree
    exactly for null, booleans, ints, floats and timestamps, and differ by
    the prefix for strings). -/
theorem getTypeSize_matches_payload (env : Env) (v : Value) (out : List Nat)
    (h : serialize env v [] false none = .ok out) :
    getTypeSize v = .ok (out.length - strHeaderlessExtra v) ∧
    strHeaderlessExtra v ≤ out.length := by
  rw [serialize_headerless] at h
  cases v with
  | vnone =>
    rw [show serializeBody env .vnone false none = .ok [] from rfl] at h
    injection h with h
    subst h
    exact ⟨rfl, by simp [strHeaderlessExtra]⟩
  | vbool b =>
    rw [show serializeBody env (.vbool b) false none
        = .ok [if Value.vbool b = Value.vbool true then 1 else 0] from rfl] at h
    injection h with h
    subst h
    exact ⟨rfl, by simp [strHeaderlessExtra]⟩
  | vint i =>
    rw [serializeBody_vint] at h
    cases hp : packSigned 4 i with
    | error e => rw [hp] at h; exact absurd h (by simp)
    | ok p =>
      rw [hp] at h
      injection h with h
      subst h
      rw [packSigned] at hp
      split at hp
      · injection hp with hp
        subst hp
        exact ⟨by simp [getTypeSize, natLE_length, strHeaderlessExtra],
               by simp [strHeaderlessExtra]⟩
      · exact absurd hp (by simp)
  | vfloat bits =>
    rw [show serializeBody env (.vfloat bits) false none
        = .ok (natLE 8 bits) from rfl] at h
    injection h with h
    subst h
    exact ⟨by simp [getTypeSize, natLE_length, strHeaderlessExtra],
           by simp [natLE_length, strHeaderlessExtra]⟩
  | vstr cps =>
    rw [serializeBody_vstr] at h
    cases henc : encodeUtf16LE cps with
    | error e =>
      simp only [serializeStr, henc] at h
      exact absurd h (by simp)
    | ok enc =>
      simp only [serializeStr, henc, if_true] at h
      cases hp : packSigned 4 ((enc.length : Nat) : Int) with
      | error e => rw [hp] at h; exact absurd h (by simp)
      | ok lp =>
        rw [hp] at h
        injection h with h
        subst h
        rw [packSigned] at hp
        split at hp
        · injection hp with hp
          subst hp
          constructor
          · simp [getTypeSize, henc, natLE_length, strHeaderlessExtra]
          · simp [natLE_length, strHeaderlessExtra]
        · exact absurd hp (by simp)
  | vdatetime us =>
    rw [serializeBody_vdatetime] at h
    cases hp : packSigned 8 (convertToLynxDate env us) with
    | error e => rw [hp] at h; exact absurd h (by simp)
    | ok p =>
      rw [hp] at h
      injection h with h
      subst h
      rw [packSigned] at hp
      split at hp
      · injection hp with hp
        subst hp
        exact ⟨by simp [getTypeSize, natLE_length, strHeaderlessExtra],
               by simp [natLE_length, strHeaderlessExtra]⟩
      · exact absurd hp (by simp)

theorem getTypeSize_matches_payload_witness :
    getTypeSize (.vbool true) = .ok (([1] : List Nat).length - strHeaderlessExtra (.vbool true)) ∧
    strHeaderlessExtra (.vbool true) ≤ ([1] : List Nat).length :=
  getTypeSize_matches_payload env0 (.vbool true) [1] rfl

theorem bytesToUnitsLE_step (b0 b1 : Nat) (rest : List Nat) :
    bytesToUnitsLE (b0 :: b1 :: rest)
      = (match bytesToUnitsLE rest with
         | .ok us => (.ok ((b0 + 256 * b1) :: us) : Except SerErr (List Nat))
         | .error e => .error e) := rfl

theorem unitsToCps_cons (u : Nat) (us : List Nat) :
    unitsToCps (u :: us)
      = (if 55296 ≤ u ∧ u < 56320 then
           match us with
           | [] => (.error .unicodeDecodeError : Except SerErr (List Nat))
           | l :: rest2 =>
             if 56320 ≤ l ∧ l < 57344 then
               match unitsToCps rest2 with
               | .ok cs => .ok ((65536 + (u - 55296) * 1024 + (l - 56320)) :: cs)
               | .error e => .error e
             else .error .unicodeDecodeError
         else if 56320 ≤ u ∧ u < 57344 then .error .unicodeDecodeError
         else
           match unitsToCps us with
           | .ok cs => .ok (u :: cs)
           | .error e => .error e) := by
  cases us with
  | nil => rfl
  | cons l rest2 => rfl

theorem unitsToCps_plain (u : Nat) (us : List Nat) (h1 : ¬(55296 ≤ u ∧ u < 56320))
    (h2 : ¬(56320 ≤ u ∧ u < 57344)) :
    unitsToCps (u :: us)
      = (match unitsToCps us with
         | .ok cs => (.ok (u :: cs) : Except SerErr (List Nat))
         | .error e => .error e) := by
  rw [unitsToCps_cons, if_neg h1, if_neg h2]

theorem unitsToCps_pair (u l : Nat) (us : List Nat) (h1 : 55296 ≤ u ∧ u < 56320)
    (h2 : 56320 ≤ l ∧ l < 57344) :
    unitsToCps (u :: l :: us)
      = (match unitsToCps us with
         | .ok cs => (.ok ((65536 + (u - 55296) * 1024 + (l - 56320)) :: cs) :
             Except SerErr (List Nat))
         | .error e => .error e) := by
  rw [unitsToCps_cons, if_pos h1]
  show (if 56320 ≤ l ∧ l < 57344 then
          match unitsToCps us with
          | .ok cs => (.ok ((65536 + (u - 55296) * 1024 + (l - 56320)) :: cs) :
              Except SerErr (List Nat))
          | .error e => .error e
        else .error .unicodeDecodeError) = _
  rw [if_pos h2]

theorem encodeUtf16LE_ok : ∀ (cps : List Nat),
    (∀ cp ∈ cps, cp < 1114112 ∧ ¬(55296 ≤ cp ∧ cp ≤ 57343)) →
    ∃ enc, encodeUtf16LE cps = .ok enc ∧ cps.length ≤ enc.length ∧
      enc.length ≤ 4 * cps.length := by
  intro cps
  induction cps with
  | nil => exact fun _ => ⟨[], rfl, by simp, by simp⟩
  | cons c r ih =>
    intro hv
    obtain ⟨tail, htail, h1, h2⟩ := ih fun cp hcp => hv cp (List.mem_cons_of_mem _ hcp)
    have hc := hv c (List.mem_cons_self _ _)
    by_cases hbmp : c < 65536
    · refine ⟨c % 256 :: c / 256 :: tail, ?_, ?_, ?_⟩
      · simp only [encodeUtf16LE, htail]
        rw [if_pos hbmp, if_neg hc.2]
      · simp only [List.length_cons]; omega
      · simp only [List.length_cons]; omega
    · refine ⟨(55296 + (c - 65536) / 1024) % 256 :: (55296 + (c - 65536) / 1024) / 256 ::
          (56320 + (c - 65536) % 1024) % 256 :: (56320 + (c - 65536) % 1024) / 256 :: tail,
          ?_, ?_, ?_⟩
      · simp only [encodeUtf16LE, htail]
        rw [if_neg hbmp, if_pos hc.1]
      · simp only [List.length_cons]; omega
      · simp only [List.length_cons]; omega

theorem units_of_encode : ∀ (cps enc : List Nat), encodeUtf16LE cps = .ok enc →
    ∃ us, bytesToUnitsLE enc = .ok us ∧ unitsToCps us = .ok cps := by
  intro cps
  induction cps with
  | nil =>
    intro enc henc
    simp only [encodeUtf16LE] at henc
    injection henc with henc
    subst henc
    exact ⟨[], rfl, rfl⟩
  | cons c r ih =>
    intro enc henc
    cases htail : encodeUtf16LE r with
    | error e => simp [encodeUtf16LE, htail] at henc
    | ok tail =>
      simp only [encodeUtf16LE, htail] at henc
      obtain ⟨us, hus, hcs⟩ := ih tail htail
      by_cases hbmp : c < 65536
      · rw [if_pos hbmp] at henc
        by_cases hsur : 55296 ≤ c ∧ c ≤ 57343
        · rw [if_pos hsur] at henc; exact absurd henc (by simp)
        · rw [if_neg hsur] at henc
          injection henc with henc
          subst henc
          refine ⟨c :: us, ?_, ?_⟩
          · rw [bytesToUnitsLE_step, hus, Nat.mod_add_div c 256]
          · rw [unitsToCps_plain c us (by omega) (by omega), hcs]
      · rw [if_neg hbmp] at henc
        by_cases hmax : c < 1114112
        · rw [if_pos hmax] at henc
          injection henc with henc
          subst henc
          refine ⟨(55296 + (c - 65536) / 1024) :: (56320 + (c - 65536) % 1024) :: us, ?_, ?_⟩
          · rw [bytesToUnitsLE_step, bytesToUnitsLE_step, hus,
              Nat.mod_add_div (55296 + (c - 65536) / 1024) 256,
              Nat.mod_add_div (56320 + (c - 65536) % 1024) 256]
          · rw [unitsToCps_pair _ _ us (by omega) (by omega), hcs]
            have harith : 65536 + (55296 + (c - 65536) / 1024 - 55296) * 1024 +
                (56320 + (c - 65536) % 1024 - 56320) = c := by omega
            rw [harith]
        · rw [if_neg hmax] at henc; exact absurd henc (by simp)

theorem encode_head (c : Nat) (r enc : List Nat)
    (henc : encodeUtf16LE (c :: r) = .ok enc) (hc1 : c ≠ 65279) (hc2 : c ≠ 65534) :
    ∃ b0 b1 tl, enc = b0 :: b1 :: tl ∧ ¬(b0 = 255 ∧ b1 = 254) ∧ ¬(b0 = 254 ∧ b1 = 255) := by
  cases htail : encodeUtf16LE r with
  | error e => simp [encodeUtf16LE, htail] at henc
  | ok tail =>
    simp only [encodeUtf16LE, htail] at henc
    by_cases hbmp : c < 65536
    · rw [if_pos hbmp] at henc
      by_cases hsur : 55296 ≤ c ∧ c ≤ 57343
      · rw [if_pos hsur] at henc; exact absurd henc (by simp)
      · rw [if_neg hsur] at henc
        injection henc with henc
        refine ⟨c % 256, c / 256, tail, henc.symm, ?_, ?_⟩
        · rintro ⟨e1, e2⟩; omega
        · rintro ⟨e1, e2⟩; omega
    · rw [if_neg hbmp] at henc
      by_cases hmax : c < 1114112
      · rw [if_pos hmax] at henc
        injection henc with henc
        refine ⟨_, _, _, henc.symm, ?_, ?_⟩
        · rintro ⟨e1, e2⟩; omega
        · rintro ⟨e1, e2⟩; omega
      · rw [if_neg hmax] at henc; exact absurd henc (by simp)

theorem pyDecodeUtf16_encode (cps enc : List Nat) (henc : encodeUtf16LE cps = .ok enc)
    (hbom : ∀ c r, cps = c :: r → c ≠ 65279 ∧ c ≠ 65534) :
    pyDecodeUtf16 enc = .ok cps := by
  obtain ⟨us, hus, hcs⟩ := units_of_encode cps enc henc
  have hLE : decodeAllLE enc = .ok cps := by
    simp only [decodeAllLE, hus, hcs]
  cases cps with
  | nil =>
    simp only [encodeUtf16LE] at henc
    injection henc with henc
    subst henc
    exact hLE
  | cons c r =>
    obtain ⟨hc1, hc2⟩ := hbom c r rfl
    obtain ⟨b0, b1, tl, henc2, hn1, hn2⟩ := encode_head c r enc henc hc1 hc2
    subst henc2
    simp only [pyDecodeUtf16]
    rw [if_neg hn1, if_neg hn2]
    exact hLE

theorem pyTake_all (l : List Nat) : pyTake l ((l.length : Nat) : Int) = l := by
  unfold pyTake
  rw [if_pos (by omega)]
  simp

theorem pyDrop_all (l : List Nat) : pyDrop l ((l.length : Nat) : Int) = [] := by
  unfold pyDrop
  rw [if_pos (by omega)]
  simp

/-- Claim C5, counterexample: the header round trip breaks already on the
    empty string.  serialize writes the header with size 0 and no payload,
    and the recursive decode, seeing size 0, falls back to reading a
    4-byte length prefix from the empty payload and dies with the
    underrun struct.error instead of returning the empty string. -/
theorem empty_string_header_roundtrip_fails :
    serialize env0 (.vstr []) [] true none = .ok [13, 0, 0, 0, 0] ∧
    deserialize env0 [13, 0, 0, 0, 0] .Unknown 0 = .error .structError :=
  ⟨rfl, rfl⟩

/-- Claim C5, amended: the self-describing header round trip holds for
    None, booleans, ints in [0, 2^31), floats, and non-empty cleanly
    encodable strings whose first code point is not swallowed as a
    byte-order mark; it fails for negative ints, for empty strings and for
    timestamps. -/
theorem header_roundtrip_restricted (env : Env) (v : Value) (h : MetaGood v) :
    ∃ out, serialize env v [] true none = .ok out ∧
      deserialize env out .Unknown 0 = .ok (v, []) := by
  cases v with
  | vnone => exact ⟨[1, 0, 0, 0, 0], rfl, rfl⟩
  | vbool b =>
    cases b with
    | false => exact ⟨[2, 1, 0, 0, 0, 0], rfl, rfl⟩
    | true => exact ⟨[2, 1, 0, 0, 0, 1], rfl, rfl⟩
  | vint i =>
    obtain ⟨h0, h1⟩ := h
    have hp : packSigned 4 i = .ok (natLE 4 i.toNat) := by
      unfold packSigned
      norm_num
      rw [if_pos (by constructor <;> omega)]
      rw [Int.emod_eq_of_lt h0 (by omega)]
    have hlen : (natLE 4 i.toNat).length = 4 := natLE_length 4 _
    have hle : leNat (natLE 4 i.toNat) = i.toNat := by
      refine leNat_natLE 4 _ ?_
      norm_num
      omega
    refine ⟨8 :: 4 :: 0 :: 0 :: 0 :: natLE 4 i.toNat, ?_, ?_⟩
    · rw [serialize_meta]
      rw [show metaHeader (.vint i) = .ok [8, 4, 0, 0, 0] from rfl]
      rw [serializeBody_vint, hp]
      rfl
    · show deserializeUnknownLoop env (8 :: 4 :: 0 :: 0 :: 0 :: natLE 4 i.toNat) = _
      rw [loop_step env 8 4 0 0 0 _ .Uint rfl (by decide)]
      simp only [deserializeTag]
      rw [takeExact_exact hlen]
      show Except.ok (Value.vint ((leNat (natLE 4 i.toNat) : Nat) : Int), []) = _
      rw [hle]
      have hcast : ((i.toNat : Nat) : Int) = i := by omega
      rw [hcast]
  | vfloat bits =>
    have hb : bits < 18446744073709551616 := h
    have hlen : (natLE 8 bits).length = 8 := natLE_length 8 _
    have hle : leNat (natLE 8 bits) = bits := by
      refine leNat_natLE 8 _ ?_
      norm_num
      omega
    refine ⟨12 :: 8 :: 0 :: 0 :: 0 :: natLE 8 bits, ?_, ?_⟩
    · rw [serialize_meta]
      rw [show metaHeader (.vfloat bits) = .ok [12, 8, 0, 0, 0] from rfl]
      rw [show serializeBody env (.vfloat bits) true none = .ok (natLE 8 bits) from rfl]
      rfl
    · show deserializeUnknownLoop env (12 :: 8 :: 0 :: 0 :: 0 :: natLE 8 bits) = _
      rw [loop_step env 12 8 0 0 0 _ .Double rfl (by decide)]
      simp only [deserializeTag]
      rw [takeExact_exact hlen]
      show Except.ok (Value.vfloat (leNat (natLE 8 bits)), []) = _
      rw [hle]
  | vstr cps =>
    obtain ⟨hne, hcnt, hval, hbom⟩ := h
    obtain ⟨enc, henc, hl1, hl2⟩ := encodeUtf16LE_ok cps hval
    have hlen32 : enc.length < 4294967296 := by omega
    have hpos : 0 < enc.length := by
      cases cps with
      | nil => exact absurd rfl hne
      | cons c r => simp only [List.length_cons] at hl1; omega
    have hmeta : metaHeader (.vstr cps) = .ok (13 :: natLE 4 enc.length) := by
      simp only [metaHeader, getTypeSize, henc]
      rw [if_pos hlen32]
      rfl
    have hbody : serializeBody env (.vstr cps) true none = .ok enc := by
      rw [serializeBody_vstr]
      simp only [serializeStr, henc]
      rw [if_neg (by simp)]
    have h4 : natLE 4 enc.length
        = enc.length % 256 :: enc.length / 256 % 256 :: enc.length / 256 / 256 % 256 ::
          enc.length / 256 / 256 / 256 % 256 :: [] := rfl
    have hle4 : leNat (natLE 4 enc.length) = enc.length := by
      refine leNat_natLE 4 _ ?_
      norm_num
      omega
    refine ⟨13 :: (natLE 4 enc.length ++ enc), ?_, ?_⟩
    · rw [serialize_meta, hmeta, hbody]
      rfl
    · rw [h4]
      simp only [List.cons_append, List.nil_append]
      show deserializeUnknownLoop env _ = _
      rw [loop_step env 13 _ _ _ _ enc .String rfl (by decide)]
      rw [show leNat [enc.length % 256, enc.length / 256 % 256, enc.length / 256 / 256 % 256,
          enc.length / 256 / 256 / 256 % 256] = enc.length from h4 ▸ hle4]
      simp only [deserializeTag]
      rw [if_pos (by omega)]
      rw [pyTake_all, pyDecodeUtf16_encode cps enc henc hbom, pyDrop_all]
  | vdatetime us => exact h.elim

theorem header_roundtrip_restricted_witness :
    ∃ out, serialize env0 (.vbool true) [] true none = .ok out ∧
      deserialize env0 out .Unknown 0 = .ok (.vbool true, []) :=
  header_roundtrip_restricted env0 (.vbool true) True.intro
